import Mathlib

/-!
Verification of the onchain-trader-intelligence real-time pipeline.

Shallow embedding of:
- the signal classifier (src/realtime/watch_wallet.py, infer_from_transfers),
- the reconnect backoff of the per-address listener (watch_one_wallet),
- the Jupiter price oracle adapter (src/pricing/jupiter_prices.py, get_price),
- the paper-execution engine (src/realtime/execute_signals.py, main /
  maybe_exit / mark_equity).

Python floats are embedded as exact rationals (ℚ); dictionaries keyed by
mint are embedded as insertion-ordered association lists, matching Python
dict iteration order.
-/

/- Rational arithmetic is `@[irreducible]` in Batteries, which blocks
kernel evaluation of concrete program runs through `decide`; these
operations are perfectly well-behaved under reduction, so restore the
default reducibility for this development.  Soundness is unaffected:
the kernel never consults reducibility attributes. -/
set_option allowUnsafeReducibility true in
attribute [semireducible] Rat.add Rat.mul Rat.sub Rat.neg Rat.inv Rat.div Rat.ofScientific

namespace Trader

/-- Python's `str.strip()` (both ends, default whitespace), written
structurally over the character list (`String.trim` is defined by
well-founded recursion and does not evaluate under `decide`). -/
def pyStrip (s : String) : String :=
  ⟨((s.data.dropWhile Char.isWhitespace).reverse.dropWhile Char.isWhitespace).reverse⟩

/-! ### Signal classifier (watch_wallet.infer_from_transfers) -/

/-- One entry of the transfer list handed to the classifier.  `mint` is
`None` or a string (a falsy empty string is dropped like `None`), and
`ui_amount` may be absent (`t.get("ui_amount", 0) or 0`). -/
structure TransferRecord where
  mint : Option String
  ui_amount : Option ℚ
deriving DecidableEq

/-- Result of `infer_from_transfers`: either the bare `no_transfers`
record or the full enrichment record. -/
inductive InferOut where
  | no_transfers : InferOut
  | classified (signal : String) (transfer_count : ℕ) (top_mint : String)
      (top_amount total_amount dominance : ℚ) : InferOut
deriving DecidableEq

/-- The `cleaned` list: records with a truthy mint, amounts taken as
`abs(float(t.get("ui_amount", 0) or 0))`. -/
def cleanedOf (transfers : List TransferRecord) : List (String × ℚ) :=
  transfers.filterMap (fun t =>
    match t.mint with
    | none => none
    | some m => if m = "" then none else some (m, |t.ui_amount.getD 0|))

/-- Python `max(cleaned, key=lambda x: x[1])`: fold keeping the current
best, replacing it only on a strictly larger key, so ties keep the first
occurrence. -/
def pyMaxBy (best : String × ℚ) : List (String × ℚ) → String × ℚ
  | [] => best
  | x :: rest => pyMaxBy (if best.2 < x.2 then x else best) rest

/-- `sum(a for _, a in cleaned)`. -/
def sumAmounts (l : List (String × ℚ)) : ℚ :=
  l.foldl (fun acc x => acc + x.2) 0

/-- Classification thresholds on the top amount. -/
def classifyLabel (top_amt : ℚ) : String :=
  if top_amt ≥ 10 then "whale_activity"
  else if top_amt ≥ 1 then "large_transfer"
  else "normal_transfer"

/-- `infer_from_transfers`, translated line by line from
src/realtime/watch_wallet.py. -/
def infer_from_transfers (transfers : List TransferRecord) : InferOut :=
  if transfers = [] then .no_transfers
  else
    match cleanedOf transfers with
    | [] => .no_transfers
    | c :: cs =>
      let cleaned := c :: cs
      let total := sumAmounts cleaned
      let top := pyMaxBy c cs
      let dominance := if total > 0 then top.2 / total else 0
      .classified (classifyLabel top.2) cleaned.length top.1 top.2 total dominance

/-! ### Execution engine (execute_signals.py) data model -/

/-- `ExecConfig` plus the run-level extras resolved in `main`
(the parsed allowlist and the `allowed_signals` set). -/
structure ExecConfig where
  starting_cash : ℚ
  copy_fraction : ℚ
  fee_bps : ℚ
  slippage_bps : ℚ
  min_signal_amount : ℚ
  min_dominance : ℚ
  hold_seconds : ℚ
  take_profit_pct : ℚ
  stop_loss_pct : ℚ
  sell_fraction : ℚ
  allow_mints : Option (List String)
  allowed_signals : List String

/-- `bps / 10_000.0`. -/
def bps_to_mult (bps : ℚ) : ℚ := bps / 10000

/-- One per-mint position record `{"units", "avg_entry", "entry_ts"}`. -/
structure Position where
  units : ℚ
  avg_entry : ℚ
  entry_ts : ℚ
deriving DecidableEq

/-- The flat position a first buy starts from. -/
def Position.zero : Position := ⟨0, 0, 0⟩

/-- A row of the trade ledger.  BUY rows record the total cost, SELL
rows record the net proceeds, the exit reason and the pnl. -/
inductive TradeRow where
  | buy (ts : ℚ) (signature mint : String) (units price gross fees slippage total_cost cash_after : ℚ)
  | sell (ts : ℚ) (signature mint reason : String) (units price gross fees slippage net cash_after pnl_pct : ℚ)
deriving DecidableEq

/-- Whether a ledger row is a SELL. -/
def TradeRow.isSell : TradeRow → Bool
  | .sell _ _ _ _ _ _ _ _ _ _ _ _ => true
  | _ => false

/-- One row of the equity curve. -/
structure EquitySnapshot where
  ts : ℚ
  cash_usd : ℚ
  position_value_usd : ℚ
  equity_usd : ℚ
  open_positions : ℕ
deriving DecidableEq

/-- The named skip counters of `main`. -/
structure SkipCounts where
  skip_missing_fields : ℕ
  skip_err : ℕ
  skip_allowlist : ℕ
  skip_signal_type : ℕ
  skip_min_amount : ℕ
  skip_min_dominance : ℕ
  skip_no_price : ℕ
  skip_insufficient_cash : ℕ
  skip_no_position : ℕ
deriving DecidableEq

def SkipCounts.zero : SkipCounts := ⟨0, 0, 0, 0, 0, 0, 0, 0, 0⟩

/-- The rejection reasons of the filter chain plus the two further
counted outcomes. -/
inductive SkipReason where
  | err | missing_fields | allowlist | signal_type | min_amount
  | min_dominance | no_price | insufficient_cash | no_position
deriving DecidableEq

/-- `skipped[name] += 1`. -/
def SkipCounts.bump (s : SkipCounts) : SkipReason → SkipCounts
  | .err => { s with skip_err := s.skip_err + 1 }
  | .missing_fields => { s with skip_missing_fields := s.skip_missing_fields + 1 }
  | .allowlist => { s with skip_allowlist := s.skip_allowlist + 1 }
  | .signal_type => { s with skip_signal_type := s.skip_signal_type + 1 }
  | .min_amount => { s with skip_min_amount := s.skip_min_amount + 1 }
  | .min_dominance => { s with skip_min_dominance := s.skip_min_dominance + 1 }
  | .no_price => { s with skip_no_price := s.skip_no_price + 1 }
  | .insufficient_cash => { s with skip_insufficient_cash := s.skip_insufficient_cash + 1 }
  | .no_position => { s with skip_no_position := s.skip_no_position + 1 }

/-- Mutable state of the engine loop: cash, the insertion-ordered
positions dict, the trade ledger, the equity curve and the counters. -/
structure EngineState where
  cash : ℚ
  positions : List (String × Position)
  trades : List TradeRow
  equity : List EquitySnapshot
  skipped : SkipCounts
deriving DecidableEq

/-- Starting state of a run. -/
def initState (cfg : ExecConfig) : EngineState :=
  { cash := cfg.starting_cash, positions := [], trades := [], equity := [],
    skipped := SkipCounts.zero }

/-- Increment a single named counter, leaving the rest of the state
unchanged (a rejection). -/
def bumpSkip (r : SkipReason) (st : EngineState) : EngineState :=
  { st with skipped := st.skipped.bump r }

/-- `positions.get(mint)`. -/
def lookupPos : List (String × Position) → String → Option Position
  | [], _ => none
  | (k, p) :: rest, m => if k = m then some p else lookupPos rest m

/-- `positions[mint] = pos`: replace in place if the key exists
(keeping dict order), else append. -/
def setPos : List (String × Position) → String → Position → List (String × Position)
  | [], m, p => [(m, p)]
  | (k, q) :: rest, m, p =>
      if k = m then (m, p) :: rest else (k, q) :: setPos rest m p

/-- A ChainEvent as read back from the signal log, restricted to the
fields the engine consumes.  Falsy strings are modelled as
`Option String` with `some ""` also falsy. -/
structure ChainEvent where
  signature : Option String
  err : Option String
  signal : Option String
  top_mint : Option String
  top_amount : ℚ
  dominance : ℚ
  ts : ℚ

/-- Python truthiness test for an optional string field. -/
def falsyStr : Option String → Bool
  | none => true
  | some s => s = ""

/-- The event's mint after the missing-fields filter passed. -/
def evMint (e : ChainEvent) : String := e.top_mint.getD ""

/-- The event's signature after the missing-fields filter passed. -/
def evSig (e : ChainEvent) : String := e.signature.getD ""

/-- An event together with the price oracle's behaviour while this
event is processed (`get_price` consulted for the filter and again in
`mark_equity`). -/
structure EventInput where
  ev : ChainEvent
  prices : String → Option ℚ

/-! ### Execution engine: equity marking, exits, event processing -/

/-- The accumulation loop of `mark_equity`: skip zero-units positions,
skip positions whose price lookup fails, sum `units * price` over the
rest, remembering whether any price resolved. -/
def posValueLoop (prices : String → Option ℚ) :
    List (String × Position) → ℚ → Bool → ℚ × Bool
  | [], acc, anyp => (acc, anyp)
  | (m, p) :: rest, acc, anyp =>
      if p.units ≤ 0 then posValueLoop prices rest acc anyp
      else
        match prices m with
        | none => posValueLoop prices rest acc anyp
        | some px => posValueLoop prices rest (acc + p.units * px) true

/-- Number of positions with strictly positive units. -/
def openPositions (positions : List (String × Position)) : ℕ :=
  (positions.filter (fun mp => 0 < mp.2.units)).length

/-- `mark_equity(ts)`: value the open positions at current prices
(unpriceable ones are skipped; `total_pos_value` is forced to 0.0 when
no price resolved) and append one EquitySnapshot. -/
def mark_equity (prices : String → Option ℚ) (ts : ℚ) (st : EngineState) :
    EngineState :=
  let r := posValueLoop prices st.positions 0 false
  let total_pos_value := if r.2 then r.1 else 0
  { st with equity := st.equity ++
      [{ ts := ts, cash_usd := st.cash, position_value_usd := total_pos_value,
         equity_usd := st.cash + total_pos_value,
         open_positions := openPositions st.positions }] }

/-- The 1e-12 dust threshold below (or at) which a residual position is
snapped to exactly zero. -/
def dustEps : ℚ := 1 / 1000000000000

/-- `maybe_exit(ts, mint, price, trigger_sig)`, translated line by line
from execute_signals.py. -/
def maybe_exit (cfg : ExecConfig) (ts : ℚ) (mint : String) (price : ℚ)
    (trigger_sig : String) (st : EngineState) : EngineState :=
  match lookupPos st.positions mint with
  | none => bumpSkip .no_position st
  | some pos =>
    if pos.units ≤ 0 then bumpSkip .no_position st
    else if pos.avg_entry ≤ 0 then st
    else
      let pnl_pct := (price / pos.avg_entry - 1) * 100
      let held_s := ts - pos.entry_ts
      let exit_reason : Option String :=
        if pnl_pct ≥ cfg.take_profit_pct then some "take_profit"
        else if pnl_pct ≤ -|cfg.stop_loss_pct| then some "stop_loss"
        else if held_s ≥ cfg.hold_seconds then some "time_exit"
        else none
      match exit_reason with
      | none => st
      | some reason =>
        let sell_units := pos.units * cfg.sell_fraction
        if sell_units ≤ 0 then st
        else
          let gross_usd := sell_units * price
          let fees_usd := gross_usd * bps_to_mult cfg.fee_bps
          let slip_usd := gross_usd * bps_to_mult cfg.slippage_bps
          let net_proceeds := gross_usd - fees_usd - slip_usd
          let cash1 := st.cash + net_proceeds
          let units1 := pos.units - sell_units
          let pos1 : Position :=
            if units1 ≤ dustEps then Position.zero
            else { pos with units := units1 }
          { st with
            cash := cash1
            positions := setPos st.positions mint pos1
            trades := st.trades ++
              [.sell ts trigger_sig mint reason sell_units price gross_usd
                fees_usd slip_usd net_proceeds cash1 pnl_pct] }

/-- `signal not in allowed_signals` rejects; an absent signal is not a
member of any set. -/
def signalAllowed (cfg : ExecConfig) : Option String → Bool
  | some s => decide (s ∈ cfg.allowed_signals)
  | none => false

/-- Checks after the allowlist: signal type, thresholds, price. -/
def preRejectSignal (cfg : ExecConfig) (inp : EventInput) : Option SkipReason :=
  if ¬ signalAllowed cfg inp.ev.signal then some .signal_type
  else if inp.ev.top_amount < cfg.min_signal_amount then some .min_amount
  else if inp.ev.dominance < cfg.min_dominance then some .min_dominance
  else
    match inp.prices (evMint inp.ev) with
    | none => some .no_price
    | some _ => none

/-- The filter chain of the event loop, in source order.  It depends
only on the configuration and the event (with its oracle), never on the
engine state; it returns the first failing check's skip reason, or
`none` when the event reaches the exit/entry stage. -/
def preReject (cfg : ExecConfig) (inp : EventInput) : Option SkipReason :=
  if inp.ev.err.isSome then some .err
  else if falsyStr inp.ev.signature ∨ falsyStr inp.ev.top_mint then some .missing_fields
  else
    match cfg.allow_mints with
    | some allow =>
        if evMint inp.ev ∉ allow then some .allowlist
        else preRejectSignal cfg inp
    | none => preRejectSignal cfg inp

/-- The entry-sizing stage: runs on the post-exit state `st1`; rejects
with `skip_insufficient_cash` when the cost exceeds cash, otherwise
books the buy, updates the position and marks equity. -/
def entryStage (cfg : ExecConfig) (inp : EventInput) (price : ℚ)
    (st1 : EngineState) : EngineState :=
  let e := inp.ev
  let trade_units := e.top_amount * cfg.copy_fraction
  let gross_usd := trade_units * price
  let fees_usd := gross_usd * bps_to_mult cfg.fee_bps
  let slip_usd := gross_usd * bps_to_mult cfg.slippage_bps
  let total_cost := gross_usd + fees_usd + slip_usd
  if st1.cash < total_cost then bumpSkip .insufficient_cash st1
  else
    let cash1 := st1.cash - total_cost
    let pos := (lookupPos st1.positions (evMint e)).getD Position.zero
    let prev_units := pos.units
    let new_units := prev_units + trade_units
    let pos1 : Position :=
      if prev_units ≤ 0 then
        { units := new_units, avg_entry := price, entry_ts := e.ts }
      else
        { units := new_units,
          avg_entry := (prev_units * pos.avg_entry + trade_units * price) / new_units,
          entry_ts := pos.entry_ts }
    let st2 : EngineState :=
      { st1 with
        cash := cash1
        positions := setPos st1.positions (evMint e) pos1
        trades := st1.trades ++
          [.buy e.ts (evSig e) (evMint e) trade_units price gross_usd
            fees_usd slip_usd total_cost cash1] }
    mark_equity inp.prices e.ts st2

/-- Processing of one event from the `for e in events` loop: the filter
chain, then (with the resolved price) the exit check for the same mint,
then entry sizing and the equity mark. -/
def step (cfg : ExecConfig) (inp : EventInput) (st : EngineState) : EngineState :=
  match preReject cfg inp with
  | some r => bumpSkip r st
  | none =>
    match inp.prices (evMint inp.ev) with
    | none => bumpSkip .no_price st
    | some price =>
        let st1 := maybe_exit cfg inp.ev.ts (evMint inp.ev) price (evSig inp.ev) st
        entryStage cfg inp price st1

/-- The whole engine run over an event list. -/
def run (cfg : ExecConfig) (inputs : List EventInput) : EngineState :=
  inputs.foldl (fun st inp => step cfg inp st) (initState cfg)

/-! ### Reconnect backoff (watch_wallet.watch_one_wallet) -/

/-- `backoff_s = min(backoff_s * 1.7, 30.0)`, the update applied after
each sleep; 1.7 written as the exact rational 17/10. -/
def backoffNext (b : ℚ) : ℚ := min (b * (17 / 10)) 30

/-- The backoff value after `n` consecutive failures, starting from the
initial `backoff_s = 1.0`; equivalently the duration of the `n`-th
sleep (0-indexed) in an uninterrupted failure streak. -/
def backoffIter : ℕ → ℚ
  | 0 => 1
  | n + 1 => backoffNext (backoffIter n)

/-- Outcome of one iteration of the `while True` connection loop:
either the connect/subscribe/receive path raised before the subscribe
acknowledgement, or the subscription was acknowledged (resetting the
backoff to 1.0) and the connection later dropped. -/
inductive ConnOutcome where
  | failBeforeAck : ConnOutcome
  | okThenDrop : ConnOutcome

/-- The sequence of sleep durations performed by the reconnect loop,
given the current `backoff_s` and the outcomes of successive
iterations: each iteration sleeps the current backoff (reset to 1.0 by
a successful subscribe) and then applies the multiplicative update. -/
def sleepsOf (b : ℚ) : List ConnOutcome → List ℚ
  | [] => []
  | .failBeforeAck :: rest => b :: sleepsOf (backoffNext b) rest
  | .okThenDrop :: rest => 1 :: sleepsOf (backoffNext 1) rest

/-! ### Jupiter price oracle (jupiter_prices.JupiterPriceClient.get_price) -/

def USDC_MINT : String := "EPjFWdd5AufqSSqeM2qN1xzybapC8G4wEGGkZwyTDt1v"

def USDT_MINT : String := "Es9vMFrzaCERmJfrF4H2FYD4KCoNkY11McCe8BenwNYB"

/-- Outcome of one network attempt of the retry loop, seen from the
`try` block: `.error` is any raised exception (HTTP error, timeout,
bad float); `.ok none` is a well-formed response without a price for
the mint (returned as unavailable without retrying); `.ok (some p)` is
a resolved price. -/
def AttemptOracle : Type := ℕ → Except Unit (Option ℚ)

/-- Result of a `get_price` call in the embedding: the returned value,
the list of sleep durations performed, and the number of network
attempts made. -/
structure FetchTrace where
  result : Option ℚ
  sleeps : List ℚ
  attempts : ℕ
deriving DecidableEq

/-- The `for attempt in range(1, max_retries + 1)` retry loop:
`attempt` is the 1-based attempt number, `fuel` the remaining
iterations.  A raised exception sleeps `0.5 * attempt` and retries;
falling off the loop returns unavailable. -/
def priceLoop (oracle : AttemptOracle) : ℕ → ℕ → FetchTrace
  | _, 0 => { result := none, sleeps := [], attempts := 0 }
  | attempt, fuel + 1 =>
      match oracle attempt with
      | .ok r => { result := r, sleeps := [], attempts := 1 }
      | .error _ =>
          let t := priceLoop oracle (attempt + 1) fuel
          { result := t.result
            sleeps := (1 / 2 : ℚ) * (attempt : ℚ) :: t.sleeps
            attempts := t.attempts + 1 }

/-- `JupiterPriceClient.get_price`, translated from
src/pricing/jupiter_prices.py: normalise the mint
(`(mint or "").strip()`), return unavailable for a falsy mint, return
1.0 immediately for the stablecoin mints, and otherwise run the
bounded retry loop. -/
def get_price (max_retries : ℕ) (mint : Option String) (oracle : AttemptOracle) :
    FetchTrace :=
  let m := pyStrip (mint.getD "")
  if m = "" then { result := none, sleeps := [], attempts := 0 }
  else if m = USDC_MINT then { result := some 1, sleeps := [], attempts := 0 }
  else if m = USDT_MINT then { result := some 1, sleeps := [], attempts := 0 }
  else priceLoop oracle 1 max_retries

/-! ### Spec-side definitions

These follow the wording of the specification (§4.2, §4.3, §8), to be
compared with the source-derived definitions above. -/

/-- Spec §4.3 step 4: `position_value = Σ units_m × price_m` over all
mints with `units_m > 0` and a currently resolvable price; mints with
no resolvable price are excluded from the sum, not priced as zero. -/
def valuedSum (prices : String → Option ℚ) : List (String × Position) → ℚ
  | [] => 0
  | (m, p) :: rest =>
      (if 0 < p.units then
        match prices m with
        | some px => p.units * px
        | none => 0
      else 0) + valuedSum prices rest

/-- Whether some position has positive units and a resolvable price
(the `any_price` flag of `mark_equity`). -/
def anyRes (prices : String → Option ℚ) : List (String × Position) → Bool
  | [] => false
  | (m, p) :: rest => (decide (0 < p.units) && (prices m).isSome) || anyRes prices rest

/-- Spec §4.3 step 2 exit priority: `take_profit` if
`pnl_pct ≥ take_profit_pct`; else `stop_loss` if
`pnl_pct ≤ −|stop_loss_pct|`; else `time_exit` if
`held ≥ hold_seconds`; else no exit. -/
def exitReasonSpec (cfg : ExecConfig) (pnl_pct held : ℚ) : Option String :=
  if cfg.take_profit_pct ≤ pnl_pct then some "take_profit"
  else if pnl_pct ≤ -|cfg.stop_loss_pct| then some "stop_loss"
  else if cfg.hold_seconds ≤ held then some "time_exit"
  else none

/-- Spec §4.3 sell-side cost model on a position exit:
`sell_units = units × sell_fraction`. -/
def sellUnitsSpec (cfg : ExecConfig) (pos : Position) : ℚ :=
  pos.units * cfg.sell_fraction

/-- Spec §4.3: `net = gross − fees − slippage` with
`gross = sell_units × price` and bps fees/slippage. -/
def sellNetSpec (cfg : ExecConfig) (pos : Position) (price : ℚ) : ℚ :=
  let gross := sellUnitsSpec cfg pos * price
  gross - gross * (cfg.fee_bps / 10000) - gross * (cfg.slippage_bps / 10000)

/-- Spec §4.3: position after a sell; `units −= sell_units`, snapping
the residual (the code snaps at `units ≤ 1e-12`, which covers the
spec's `< 1e-12`) to an exactly-zero position with reset
avg_entry/entry_ts. -/
def postSellPosSpec (cfg : ExecConfig) (pos : Position) : Position :=
  let u1 := pos.units - sellUnitsSpec cfg pos
  if u1 ≤ dustEps then Position.zero
  else { pos with units := u1 }

/-- Spec §4.3 buy sizing: `trade_units = top_amount × copy_fraction`,
`total_cost = gross + fees + slippage`. -/
def totalCostSpec (cfg : ExecConfig) (top_amount price : ℚ) : ℚ :=
  let trade_units := top_amount * cfg.copy_fraction
  let gross := trade_units * price
  gross + gross * (cfg.fee_bps / 10000) + gross * (cfg.slippage_bps / 10000)

/-- Spec §4.3 position after an accepted buy: weighted-average entry
price, or a fresh entry at `price`/`now` from flat. -/
def postBuyPosSpec (cfg : ExecConfig) (pos : Position) (top_amount price now : ℚ) :
    Position :=
  let trade_units := top_amount * cfg.copy_fraction
  if pos.units ≤ 0 then
    { units := pos.units + trade_units, avg_entry := price, entry_ts := now }
  else
    { units := pos.units + trade_units
      avg_entry := (pos.units * pos.avg_entry + trade_units * price) /
        (pos.units + trade_units)
      entry_ts := pos.entry_ts }

/-- Spec §4.2: the maximum transfer amount of the cleaned list (all
amounts are absolute values, so folding from 0 is the maximum for a
nonempty list). -/
def maxAmt (l : List (String × ℚ)) : ℚ :=
  l.foldl (fun m x => max m x.2) 0

/-- Spec §4.2 classification by `top_amount`: `≥ 10 → whale_activity`;
`≥ 1 → large_transfer`; otherwise `normal_transfer`. -/
def classifyLabelSpec (top_amount : ℚ) : String :=
  if 10 ≤ top_amount then "whale_activity"
  else if 1 ≤ top_amount then "large_transfer"
  else "normal_transfer"

/-- Spec §8: `equity == cash + Σ(valued positions)`; one snapshot,
stamped with the event's time, carrying the post-event cash, the
spec-side valuation of the post-event positions, their exact sum as
equity, and the open-position count. -/
def appendsOneSnapshot (prices : String → Option ℚ) (ts : ℚ)
    (before after : EngineState) : Prop :=
  after.equity = before.equity ++
    [{ ts := ts
       cash_usd := after.cash
       position_value_usd := valuedSum prices after.positions
       equity_usd := after.cash + valuedSum prices after.positions
       open_positions := openPositions after.positions }]

/-- All prices an input's oracle can resolve are nonnegative. -/
def NonnegPrices (inputs : List EventInput) : Prop :=
  ∀ inp ∈ inputs, ∀ m q, inp.prices m = some q → 0 ≤ q

/-- Spec §3 global invariant: `cash ≥ 0` and every position's
`units ≥ 0`. -/
def InvState (st : EngineState) : Prop :=
  0 ≤ st.cash ∧ ∀ mp ∈ st.positions, 0 ≤ mp.2.units

/-! ### Concrete fixtures (default configuration and spec scenarios) -/

/-- The defaults of `ExecConfig` together with the default
`allowed_signals = {large_transfer, whale_activity}` and no allowlist;
exactly the configuration of spec Scenario A. -/
def cfgDefault : ExecConfig where
  starting_cash := 1000
  copy_fraction := 1 / 10
  fee_bps := 20
  slippage_bps := 30
  min_signal_amount := 1
  min_dominance := 7 / 10
  hold_seconds := 900
  take_profit_pct := 2
  stop_loss_pct := 1
  sell_fraction := 1
  allow_mints := none
  allowed_signals := ["large_transfer", "whale_activity"]

/-- Scenario A's configuration with `sell_fraction` forced to 0. -/
def cfgNoSell : ExecConfig := { cfgDefault with sell_fraction := 0 }

/-- Scenario A's configuration with a negative `copy_fraction`
(allowed by the claimed starting conditions, which only constrain
`starting_cash` and `sell_fraction`). -/
def cfgNegCopy : ExecConfig := { cfgDefault with copy_fraction := -1 }

/-- A price oracle resolving the test mint `"MINTX"` to a fixed price
and every other mint to unavailable. -/
def pricesAt (p : ℚ) : String → Option ℚ :=
  fun m => if m = "MINTX" then some p else none

/-- Spec Scenario A's event: `top_amount=5, dominance=0.9,
signal=large_transfer`. -/
def evScenA : ChainEvent where
  signature := some "sig1"
  err := none
  signal := some "large_transfer"
  top_mint := some "MINTX"
  top_amount := 5
  dominance := 9 / 10
  ts := 100

/-- A later event for the same mint (Scenario B shape). -/
def evFollow : ChainEvent := { evScenA with signature := some "sig2", ts := 200 }

/-- A later event for the same mint with a huge observed amount, used
to drive the buy into `skip_insufficient_cash` after an exit already
executed. -/
def evBig : ChainEvent := { evFollow with top_amount := 10000 }

/-- An event carrying a chain-level error. -/
def evErr : ChainEvent := { evScenA with err := some "InstructionError" }

/-- Scenario A as one engine input: the event at price 2.0. -/
def inpScenA : EventInput := ⟨evScenA, pricesAt 2⟩

/-- Scenario B's second input: the same mint at price 2.05. -/
def inpScenB : EventInput := ⟨evFollow, pricesAt (41 / 20)⟩

/-- The follow-up input at price 4.0 with a huge amount: triggers a
take-profit exit and then fails the cash check. -/
def inpBig : EventInput := ⟨evBig, pricesAt 4⟩

/-- The follow-up input at price 4.0 with the small amount. -/
def inpFollow4 : EventInput := ⟨evFollow, pricesAt 4⟩

/-- Scenario A's event against an oracle resolving the mint at price
0, which creates a position with positive units and zero
avg_entry_price. -/
def inpZeroPrice : EventInput := ⟨evScenA, pricesAt 0⟩

/-- The error event as an input. -/
def inpErr : EventInput := ⟨evErr, pricesAt 2⟩

/-- Scenario A's event at price 1. -/
def inpAt1 : EventInput := ⟨evScenA, pricesAt 1⟩

/-! ### Backoff lemmas and claim C7 -/

theorem backoffIter_one_le : ∀ n, 1 ≤ backoffIter n
  | 0 => le_refl 1
  | n + 1 => by
    have h := backoffIter_one_le n
    unfold backoffIter backoffNext
    apply le_min
    · nlinarith
    · norm_num

theorem backoffIter_le_thirty : ∀ n, backoffIter n ≤ 30
  | 0 => by norm_num [backoffIter]
  | n + 1 => min_le_right _ _

theorem backoffIter_mono (n : ℕ) : backoffIter n ≤ backoffIter (n + 1) := by
  have h1 := backoffIter_one_le n
  have h2 := backoffIter_le_thirty n
  show backoffIter n ≤ backoffNext (backoffIter n)
  unfold backoffNext
  exact le_min (by nlinarith) h2

theorem sleepsOf_replicate : ∀ (n k : ℕ),
    sleepsOf (backoffIter k) (List.replicate n ConnOutcome.failBeforeAck) =
      (List.range n).map (fun j => backoffIter (k + j))
  | 0, _ => rfl
  | n + 1, k => by
    rw [List.replicate_succ]
    show backoffIter k :: sleepsOf (backoffNext (backoffIter k)) _ = _
    have hnext : backoffNext (backoffIter k) = backoffIter (k + 1) := rfl
    rw [hnext, sleepsOf_replicate n (k + 1), List.range_succ_eq_map, List.map_cons,
      List.map_map]
    have hfun : ((fun j => backoffIter (k + j)) ∘ Nat.succ) =
        (fun j => backoffIter (k + 1 + j)) := by
      funext j
      show backoffIter (k + (j + 1)) = backoffIter (k + 1 + j)
      congr 1
      omega
    rw [hfun]
    rfl

theorem backoffIter_capped : ∀ n, 7 ≤ n → backoffIter n = 30 := by
  intro n
  induction n with
  | zero => omega
  | succ m ih =>
    intro hn
    rcases Nat.lt_or_ge m 7 with h | h
    · have hm : m = 6 := by omega
      subst hm
      decide
    · show backoffNext (backoffIter m) = 30
      rw [ih h]
      decide

/-- C7: the per-address reconnect backoff starts at 1.0, multiplies by
1.7 after each failure capped at 30, is monotone along an uninterrupted
failure streak, resets to 1.0 immediately after a successful subscribe
acknowledgement, and the successive sleep durations are exactly
1.0, 1.7, 2.89, 4.913, 8.3521, 14.19857, 24.137569, then 30 capped
thereafter. -/
theorem C7_backoff :
    backoffIter 0 = 1 ∧
    (∀ n, backoffIter (n + 1) = min (backoffIter n * (17 / 10)) 30) ∧
    (∀ n, backoffIter n ≤ backoffIter (n + 1)) ∧
    (∀ n, backoffIter n ≤ 30) ∧
    (∀ b n, sleepsOf b (ConnOutcome.okThenDrop :: List.replicate n ConnOutcome.failBeforeAck) =
      (List.range (n + 1)).map backoffIter) ∧
    (∀ n, sleepsOf 1 (List.replicate n ConnOutcome.failBeforeAck) =
      (List.range n).map backoffIter) ∧
    (List.range 8).map backoffIter =
      [1, 17 / 10, 289 / 100, 4913 / 1000, 83521 / 10000, 1419857 / 100000,
        24137569 / 1000000, 30] ∧
    (∀ n, 7 ≤ n → backoffIter n = 30) := by
  have hrep : ∀ n, sleepsOf 1 (List.replicate n ConnOutcome.failBeforeAck) =
      (List.range n).map backoffIter := by
    intro n
    have h := sleepsOf_replicate n 0
    have hfun : (fun j => backoffIter (0 + j)) = backoffIter := by
      funext j
      rw [Nat.zero_add]
    rw [hfun] at h
    exact h
  refine ⟨rfl, fun n => rfl, backoffIter_mono, backoffIter_le_thirty, ?_, hrep, by decide,
    backoffIter_capped⟩
  intro b n
  show (1 : ℚ) :: sleepsOf (backoffNext 1) (List.replicate n ConnOutcome.failBeforeAck) = _
  have hnext : backoffNext 1 = backoffIter 1 := rfl
  rw [hnext, sleepsOf_replicate n 1, List.range_succ_eq_map, List.map_cons, List.map_map]
  have hfun : (backoffIter ∘ Nat.succ) = (fun j => backoffIter (1 + j)) := by
    funext j
    show backoffIter (j + 1) = backoffIter (1 + j)
    congr 1
    omega
  rw [hfun]
  rfl

/-- Witness for C7: after seven failures the sleep is capped at 30, and
a success followed by three failures sleeps exactly 1.0, 1.7, 2.89,
4.913 regardless of the backoff accumulated before the success. -/
theorem C7_backoff_witness :
    backoffIter 10 = 30 ∧
    sleepsOf 25 (ConnOutcome.okThenDrop :: List.replicate 3 ConnOutcome.failBeforeAck) =
      [1, 17 / 10, 289 / 100, 4913 / 1000] := by
  constructor
  · exact C7_backoff.2.2.2.2.2.2.2 10 (by decide)
  · rw [C7_backoff.2.2.2.2.1 25 3]
    decide

/-! ### Price-oracle lemmas and claim C8 -/

theorem priceLoop_attempts_le (oracle : AttemptOracle) :
    ∀ (fuel a : ℕ), (priceLoop oracle a fuel).attempts ≤ fuel
  | 0, _ => le_refl 0
  | fuel + 1, a => by
    unfold priceLoop
    cases oracle a with
    | ok r => exact Nat.succ_le_succ (Nat.zero_le fuel)
    | error e => exact Nat.succ_le_succ (priceLoop_attempts_le oracle fuel (a + 1))

theorem priceLoop_all_fail (oracle : AttemptOracle)
    (hfail : ∀ k, oracle k = Except.error ()) :
    ∀ (fuel a : ℕ), priceLoop oracle a fuel =
      { result := none
        sleeps := (List.range fuel).map (fun j => (1 / 2 : ℚ) * ((a + j : ℕ) : ℚ))
        attempts := fuel }
  | 0, _ => rfl
  | fuel + 1, a => by
    unfold priceLoop
    rw [hfail a, priceLoop_all_fail oracle hfail fuel (a + 1)]
    rw [List.range_succ_eq_map, List.map_cons, List.map_map]
    have hfun : ((fun j => (1 / 2 : ℚ) * ((a + j : ℕ) : ℚ)) ∘ Nat.succ) =
        (fun j => (1 / 2 : ℚ) * ((a + 1 + j : ℕ) : ℚ)) := by
      funext j
      show (1 / 2 : ℚ) * ((a + (j + 1) : ℕ) : ℚ) = (1 / 2 : ℚ) * ((a + 1 + j : ℕ) : ℚ)
      congr 2
      omega
    rw [hfun]
    rfl

/-- C8: `get_price` returns a price or unavailable and never raises
(it is total into `Option`): the stablecoin mints resolve immediately
to 1.0 with no attempt and no sleep; any other non-falsy lookup runs
the bounded retry loop, which makes at most `max_retries` attempts,
sleeps `0.5 * attempt_number` after each failed attempt, and returns
unavailable once the retries are exhausted. -/
theorem C8_price_oracle :
    (∀ mr oracle, get_price mr (some USDC_MINT) oracle =
      { result := some 1, sleeps := [], attempts := 0 }) ∧
    (∀ mr oracle, get_price mr (some USDT_MINT) oracle =
      { result := some 1, sleeps := [], attempts := 0 }) ∧
    (∀ mr mint oracle, (get_price mr mint oracle).attempts ≤ mr) ∧
    (∀ mr a oracle, (∀ k, oracle k = Except.error ()) →
      priceLoop oracle a mr =
        { result := none
          sleeps := (List.range mr).map (fun j => (1 / 2 : ℚ) * ((a + j : ℕ) : ℚ))
          attempts := mr }) ∧
    (∀ mr mint oracle, pyStrip (mint.getD "") ≠ "" →
      pyStrip (mint.getD "") ≠ USDC_MINT → pyStrip (mint.getD "") ≠ USDT_MINT →
      get_price mr mint oracle = priceLoop oracle 1 mr) := by
  refine ⟨fun mr oracle => rfl, fun mr oracle => rfl, ?_, fun mr a oracle h =>
    priceLoop_all_fail oracle h mr a, ?_⟩
  · intro mr mint oracle
    simp only [get_price]
    split_ifs
    · exact Nat.zero_le mr
    · exact Nat.zero_le mr
    · exact Nat.zero_le mr
    · exact priceLoop_attempts_le oracle mr 1
  · intro mr mint oracle h1 h2 h3
    simp only [get_price]
    rw [if_neg h1, if_neg h2, if_neg h3]

/-- Witness for C8: a lookup against an always-failing oracle makes
exactly 3 attempts, sleeps 0.5, 1.0, 1.5, and returns unavailable; a
USDC lookup against the same dead oracle still returns 1.0 at once. -/
theorem C8_price_oracle_witness :
    get_price 3 (some "OTHERMINT") (fun _ => Except.error ()) =
      { result := none, sleeps := [1 / 2, 1, 3 / 2], attempts := 3 } ∧
    get_price 3 (some USDC_MINT) (fun _ => Except.error ()) =
      { result := some 1, sleeps := [], attempts := 0 } := by
  constructor
  · rw [C8_price_oracle.2.2.2.2 3 (some "OTHERMINT") (fun _ => Except.error ())
      (by decide) (by decide) (by decide)]
    rw [C8_price_oracle.2.2.2.1 3 1 (fun _ => Except.error ()) (fun k => rfl)]
    decide
  · exact C8_price_oracle.1 3 (fun _ => Except.error ())

/-! ### Classifier lemmas and claim C5 -/

theorem cleanedOf_nonneg (ts : List TransferRecord) :
    ∀ x ∈ cleanedOf ts, 0 ≤ x.2 := by
  intro x hx
  unfold cleanedOf at hx
  rw [List.mem_filterMap] at hx
  obtain ⟨t, _, ht⟩ := hx
  cases hm : t.mint with
  | none => rw [hm] at ht; exact absurd ht (by simp)
  | some m =>
    rw [hm] at ht
    dsimp only at ht
    by_cases hm' : m = ""
    · rw [if_pos hm'] at ht
      exact absurd ht (by simp)
    · rw [if_neg hm'] at ht
      obtain ⟨-, hx2⟩ := Prod.mk.injEq .. ▸ Option.some.injEq .. ▸ ht
      rw [← hx2]
      exact abs_nonneg _

theorem le_foldl_amtMax : ∀ (l : List (String × ℚ)) (b : ℚ),
    b ≤ l.foldl (fun m x => max m x.2) b
  | [], _ => le_refl _
  | x :: l, b =>
    le_trans (le_max_left b x.2) (le_foldl_amtMax l (max b x.2))

theorem sumAmounts_shift : ∀ (l : List (String × ℚ)) (a : ℚ),
    l.foldl (fun acc x => acc + x.2) a = a + sumAmounts l
  | [], a => by simp [sumAmounts]
  | x :: l, a => by
    unfold sumAmounts
    rw [List.foldl_cons, List.foldl_cons, sumAmounts_shift l (a + x.2),
      sumAmounts_shift l (0 + x.2)]
    ring

theorem sumAmounts_cons (x : String × ℚ) (l : List (String × ℚ)) :
    sumAmounts (x :: l) = x.2 + sumAmounts l := by
  show (x :: l).foldl (fun acc y => acc + y.2) 0 = _
  rw [List.foldl_cons, sumAmounts_shift l (0 + x.2)]
  ring

theorem sumAmounts_nonneg : ∀ (l : List (String × ℚ)),
    (∀ x ∈ l, (0 : ℚ) ≤ x.2) → 0 ≤ sumAmounts l
  | [], _ => le_refl 0
  | x :: l, h => by
    rw [sumAmounts_cons]
    have h1 := h x (List.mem_cons_self x l)
    have h2 := sumAmounts_nonneg l (fun y hy => h y (List.mem_cons_of_mem x hy))
    linarith

theorem foldl_amtMax_le_sum : ∀ (l : List (String × ℚ)) (b : ℚ), 0 ≤ b →
    (∀ x ∈ l, (0 : ℚ) ≤ x.2) →
    l.foldl (fun m x => max m x.2) b ≤ b + sumAmounts l
  | [], b, _, _ => by simp [sumAmounts]
  | x :: l, b, hb, h => by
    rw [List.foldl_cons, sumAmounts_cons]
    have hx := h x (List.mem_cons_self x l)
    have ih := foldl_amtMax_le_sum l (max b x.2) (le_trans hb (le_max_left b x.2))
      (fun y hy => h y (List.mem_cons_of_mem x hy))
    have hmax : max b x.2 ≤ b + x.2 := max_le_add_of_nonneg hb hx
    linarith

theorem pyMaxBy_amt : ∀ (l : List (String × ℚ)) (b : String × ℚ),
    (pyMaxBy b l).2 = l.foldl (fun m x => max m x.2) b.2
  | [], _ => rfl
  | x :: l, b => by
    rw [List.foldl_cons]
    show (pyMaxBy (if b.2 < x.2 then x else b) l).2 = _
    rw [pyMaxBy_amt l (if b.2 < x.2 then x else b)]
    congr 1
    rcases lt_or_le b.2 x.2 with h | h
    · rw [if_pos h, max_eq_right (le_of_lt h)]
    · rw [if_neg (not_lt.mpr h), max_eq_left h]

theorem pyMaxBy_first_max : ∀ (l : List (String × ℚ)) (b : String × ℚ),
    List.find? (fun x => decide (x.2 = l.foldl (fun m x => max m x.2) b.2)) (b :: l) =
      some (pyMaxBy b l)
  | [], b => by simp [pyMaxBy, List.find?]
  | x :: l, b => by
    have hM : (x :: l).foldl (fun m y => max m y.2) b.2 =
        l.foldl (fun m y => max m y.2) (max b.2 x.2) := by
      rw [List.foldl_cons]
    rcases lt_or_le b.2 x.2 with hx | hx
    · -- the running best is replaced by x
      have hb' : (if b.2 < x.2 then x else b) = x := if_pos hx
      have ih := pyMaxBy_first_max l x
      have hMM : l.foldl (fun m y => max m y.2) (max b.2 x.2) =
          l.foldl (fun m y => max m y.2) x.2 := by
        rw [max_eq_right (le_of_lt hx)]
      have hbM : b.2 ≠ (x :: l).foldl (fun m y => max m y.2) b.2 := by
        rw [hM, hMM]
        have := le_foldl_amtMax l x.2
        intro hcontra
        rw [← hcontra] at this
        exact absurd (lt_of_lt_of_le hx this) (lt_irrefl _)
      show List.find? _ (b :: x :: l) = some (pyMaxBy (if b.2 < x.2 then x else b) l)
      rw [hb']
      rw [List.find?_cons_of_neg _ (by simpa using hbM)]
      rw [hM, hMM]
      exact ih
    · -- the running best survives
      have hb' : (if b.2 < x.2 then x else b) = b := if_neg (not_lt.mpr hx)
      have ih := pyMaxBy_first_max l b
      have hMM : l.foldl (fun m y => max m y.2) (max b.2 x.2) =
          l.foldl (fun m y => max m y.2) b.2 := by
        rw [max_eq_left hx]
      show List.find? _ (b :: x :: l) = some (pyMaxBy (if b.2 < x.2 then x else b) l)
      rw [hb', hM, hMM]
      by_cases hb : b.2 = l.foldl (fun m y => max m y.2) b.2
      · -- b already attains the maximum: find? answers b both times
        rw [List.find?_cons_of_pos _ (by simpa using hb)]
        rw [List.find?_cons_of_pos _ (by simpa using hb)] at ih
        exact ih
      · -- b is below the maximum, hence so is x: skip both heads
        have hblt : b.2 < l.foldl (fun m y => max m y.2) b.2 :=
          lt_of_le_of_ne (le_foldl_amtMax l b.2) hb
        have hxM : x.2 ≠ l.foldl (fun m y => max m y.2) b.2 := by
          intro hcontra
          exact absurd (hcontra ▸ hx) (not_le.mpr hblt)
        rw [List.find?_cons_of_neg _ (by simpa using hb),
          List.find?_cons_of_neg _ (by simpa using hxM)]
        rw [List.find?_cons_of_neg _ (by simpa using hb)] at ih
        exact ih

theorem maxAmt_cons_of_nonneg {c : String × ℚ} (cs : List (String × ℚ)) (h : 0 ≤ c.2) :
    maxAmt (c :: cs) = cs.foldl (fun m x => max m x.2) c.2 := by
  show (c :: cs).foldl (fun m x => max m x.2) 0 = _
  rw [List.foldl_cons, max_eq_right h]

theorem classifyLabel_eq_spec (a : ℚ) : classifyLabel a = classifyLabelSpec a := rfl

/-- C5: the classifier is a pure function of the transfer list: empty
or mintless input yields `no_transfers`; otherwise the top transfer is
the first record attaining the maximum absolute amount, `total` is the
sum of absolute amounts, `dominance = top/total` when `total > 0` and
0 otherwise (always within [0,1]), and the signal is classified by the
10/1 thresholds; on Scenario E's input the result is
`top_amount=7, total_amount=10, dominance=0.7, large_transfer`. -/
theorem C5_classifier :
    (∀ ts, infer_from_transfers ts = InferOut.no_transfers ↔ cleanedOf ts = []) ∧
    (∀ ts s c tm ta tot d,
      infer_from_transfers ts = InferOut.classified s c tm ta tot d →
      c = (cleanedOf ts).length ∧
      tot = sumAmounts (cleanedOf ts) ∧
      ta = maxAmt (cleanedOf ts) ∧
      List.find? (fun x => decide (x.2 = ta)) (cleanedOf ts) = some (tm, ta) ∧
      d = (if 0 < tot then ta / tot else 0) ∧
      0 ≤ d ∧ d ≤ 1 ∧
      s = classifyLabelSpec ta) ∧
    infer_from_transfers
        [{ mint := some "X", ui_amount := some 3 }, { mint := some "X", ui_amount := some 7 }] =
      InferOut.classified "large_transfer" 2 "X" 7 10 (7 / 10) := by
  refine ⟨?_, ?_, by decide⟩
  · intro ts
    by_cases hts : ts = []
    · subst hts
      simp [infer_from_transfers, cleanedOf]
    · simp only [infer_from_transfers, if_neg hts]
      cases hc : cleanedOf ts with
      | nil => simp
      | cons c0 cs0 => simp
  · intro ts s c tm ta tot d h
    by_cases hts : ts = []
    · subst hts
      exact absurd h (by simp [infer_from_transfers])
    · simp only [infer_from_transfers, if_neg hts] at h
      cases hc : cleanedOf ts with
      | nil => rw [hc] at h; exact absurd h (by simp)
      | cons c0 cs0 =>
        rw [hc] at h
        have hnn : ∀ x ∈ c0 :: cs0, (0 : ℚ) ≤ x.2 := fun x hx =>
          cleanedOf_nonneg ts x (hc ▸ hx)
        have h0 : (0 : ℚ) ≤ c0.2 := hnn c0 (List.mem_cons_self _ _)
        simp only [InferOut.classified.injEq] at h
        obtain ⟨hs, hcnt, htm, hta, htot, hd⟩ := h
        subst hs
        subst hcnt
        subst htm
        subst hta
        subst htot
        subst hd
        have hamt := pyMaxBy_amt cs0 c0
        have htop0 : (0 : ℚ) ≤ (pyMaxBy c0 cs0).2 := by
          rw [hamt]
          exact le_trans h0 (le_foldl_amtMax cs0 c0.2)
        have htople : (pyMaxBy c0 cs0).2 ≤ sumAmounts (c0 :: cs0) := by
          rw [hamt, sumAmounts_cons]
          exact foldl_amtMax_le_sum cs0 c0.2 h0
            (fun y hy => hnn y (List.mem_cons_of_mem c0 hy))
        refine ⟨rfl, rfl, ?_, ?_, rfl, ?_, ?_, classifyLabel_eq_spec _⟩
        · rw [maxAmt_cons_of_nonneg cs0 h0]
          exact hamt
        · rw [Prod.mk.eta, hamt]
          exact pyMaxBy_first_max cs0 c0
        · by_cases htot0 : sumAmounts (c0 :: cs0) > 0
          · rw [if_pos htot0]
            exact div_nonneg htop0 (le_of_lt htot0)
          · rw [if_neg htot0]
        · by_cases htot0 : sumAmounts (c0 :: cs0) > 0
          · rw [if_pos htot0]
            exact (div_le_one htot0).mpr htople
          · rw [if_neg htot0]
            norm_num

/-- Witness for C5: Scenario E's input instantiates the inversion
clause, giving its dominance bounds concretely. -/
theorem C5_classifier_witness :
    (0 : ℚ) ≤ 7 / 10 ∧ (7 / 10 : ℚ) ≤ 1 := by
  have h := C5_classifier.2.1
    [{ mint := some "X", ui_amount := some 3 }, { mint := some "X", ui_amount := some 7 }]
    "large_transfer" 2 "X" 7 10 (7 / 10) C5_classifier.2.2
  exact ⟨h.2.2.2.2.2.1, h.2.2.2.2.2.2.1⟩

/-! ### Engine step lemmas -/

theorem step_of_preReject (cfg : ExecConfig) (inp : EventInput) (st : EngineState)
    (r : SkipReason) (h : preReject cfg inp = some r) :
    step cfg inp st = bumpSkip r st := by
  simp only [step, h]

theorem step_of_pass (cfg : ExecConfig) (inp : EventInput) (st : EngineState) (p : ℚ)
    (h : preReject cfg inp = none) (hp : inp.prices (evMint inp.ev) = some p) :
    step cfg inp st = entryStage cfg inp p
      (maybe_exit cfg inp.ev.ts (evMint inp.ev) p (evSig inp.ev) st) := by
  simp only [step, h, hp]

theorem entryStage_insufficient (cfg : ExecConfig) (inp : EventInput) (p : ℚ)
    (st1 : EngineState) (h : st1.cash < totalCostSpec cfg inp.ev.top_amount p) :
    entryStage cfg inp p st1 = bumpSkip SkipReason.insufficient_cash st1 := by
  simp only [totalCostSpec, bps_to_mult] at h
  simp only [entryStage, bps_to_mult]
  rw [if_pos h]

theorem entryStage_accepted (cfg : ExecConfig) (inp : EventInput) (p : ℚ)
    (st1 : EngineState) (h : totalCostSpec cfg inp.ev.top_amount p ≤ st1.cash) :
    entryStage cfg inp p st1 = mark_equity inp.prices inp.ev.ts
      { st1 with
        cash := st1.cash - totalCostSpec cfg inp.ev.top_amount p
        positions := setPos st1.positions (evMint inp.ev)
          (postBuyPosSpec cfg
            ((lookupPos st1.positions (evMint inp.ev)).getD Position.zero)
            inp.ev.top_amount p inp.ev.ts)
        trades := st1.trades ++
          [TradeRow.buy inp.ev.ts (evSig inp.ev) (evMint inp.ev)
            (inp.ev.top_amount * cfg.copy_fraction) p
            (inp.ev.top_amount * cfg.copy_fraction * p)
            (inp.ev.top_amount * cfg.copy_fraction * p * (cfg.fee_bps / 10000))
            (inp.ev.top_amount * cfg.copy_fraction * p * (cfg.slippage_bps / 10000))
            (totalCostSpec cfg inp.ev.top_amount p)
            (st1.cash - totalCostSpec cfg inp.ev.top_amount p)] } := by
  simp only [totalCostSpec, bps_to_mult] at h
  simp only [entryStage, postBuyPosSpec, totalCostSpec, bps_to_mult]
  rw [if_neg (not_lt.mpr h)]

theorem mark_equity_cash (prices : String → Option ℚ) (ts : ℚ) (st : EngineState) :
    (mark_equity prices ts st).cash = st.cash := rfl

theorem mark_equity_positions (prices : String → Option ℚ) (ts : ℚ) (st : EngineState) :
    (mark_equity prices ts st).positions = st.positions := rfl

theorem mark_equity_trades (prices : String → Option ℚ) (ts : ℚ) (st : EngineState) :
    (mark_equity prices ts st).trades = st.trades := rfl

theorem maybe_exit_equity (cfg : ExecConfig) (ts : ℚ) (mint : String) (price : ℚ)
    (sig : String) (st : EngineState) :
    (maybe_exit cfg ts mint price sig st).equity = st.equity := by
  simp only [maybe_exit]
  repeat' split
  all_goals rfl

theorem exitReason_inline (cfg : ExecConfig) (pnl held : ℚ) :
    (if pnl ≥ cfg.take_profit_pct then some "take_profit"
     else if pnl ≤ -|cfg.stop_loss_pct| then some "stop_loss"
     else if held ≥ cfg.hold_seconds then some "time_exit" else none) =
    exitReasonSpec cfg pnl held := rfl

theorem maybe_exit_no_reason (cfg : ExecConfig) (ts : ℚ) (mint : String) (price : ℚ)
    (sig : String) (st : EngineState) (pos : Position)
    (hl : lookupPos st.positions mint = some pos)
    (hu : 0 < pos.units) (ha : 0 < pos.avg_entry)
    (hr : exitReasonSpec cfg ((price / pos.avg_entry - 1) * 100) (ts - pos.entry_ts) = none) :
    maybe_exit cfg ts mint price sig st = st := by
  simp only [maybe_exit, hl]
  rw [if_neg (not_le.mpr hu), if_neg (not_le.mpr ha), exitReason_inline, hr]

theorem maybe_exit_zero_sell (cfg : ExecConfig) (ts : ℚ) (mint : String) (price : ℚ)
    (sig : String) (st : EngineState) (pos : Position)
    (hl : lookupPos st.positions mint = some pos)
    (hu : 0 < pos.units) (ha : 0 < pos.avg_entry) (r : String)
    (hr : exitReasonSpec cfg ((price / pos.avg_entry - 1) * 100) (ts - pos.entry_ts) = some r)
    (hsu : pos.units * cfg.sell_fraction ≤ 0) :
    maybe_exit cfg ts mint price sig st = st := by
  simp only [maybe_exit, hl]
  rw [if_neg (not_le.mpr hu), if_neg (not_le.mpr ha), exitReason_inline, hr]
  dsimp only
  rw [if_pos hsu]

theorem maybe_exit_sells (cfg : ExecConfig) (ts : ℚ) (mint : String) (price : ℚ)
    (sig : String) (st : EngineState) (pos : Position)
    (hl : lookupPos st.positions mint = some pos)
    (hu : 0 < pos.units) (ha : 0 < pos.avg_entry) (r : String)
    (hr : exitReasonSpec cfg ((price / pos.avg_entry - 1) * 100) (ts - pos.entry_ts) = some r)
    (hsu : 0 < pos.units * cfg.sell_fraction) :
    maybe_exit cfg ts mint price sig st =
      { st with
        cash := st.cash + sellNetSpec cfg pos price
        positions := setPos st.positions mint (postSellPosSpec cfg pos)
        trades := st.trades ++
          [TradeRow.sell ts sig mint r (sellUnitsSpec cfg pos) price
            (sellUnitsSpec cfg pos * price)
            (sellUnitsSpec cfg pos * price * (cfg.fee_bps / 10000))
            (sellUnitsSpec cfg pos * price * (cfg.slippage_bps / 10000))
            (sellNetSpec cfg pos price)
            (st.cash + sellNetSpec cfg pos price)
            ((price / pos.avg_entry - 1) * 100)] } := by
  simp only [maybe_exit, hl]
  rw [if_neg (not_le.mpr hu), if_neg (not_le.mpr ha), exitReason_inline, hr]
  dsimp only
  rw [if_neg (not_le.mpr hsu)]
  simp only [sellNetSpec, sellUnitsSpec, postSellPosSpec, bps_to_mult]

/-! ### Claim C1: state preservation on rejected events -/

/-- C1 counterexample: processing Scenario A's buy and then a
same-mint event at price 4.0 with a huge observed amount: the second
event is rejected with `skip_insufficient_cash`, yet — because the
take-profit exit for the same mint ran first — it changed cash,
changed the mint's position, and appended a SELL row. -/
theorem C1_counterexample :
    (run cfgDefault [inpScenA, inpBig]).skipped.skip_insufficient_cash = 1 ∧
    (run cfgDefault [inpScenA]).skipped.skip_insufficient_cash = 0 ∧
    (run cfgDefault [inpScenA, inpBig]).cash ≠ (run cfgDefault [inpScenA]).cash ∧
    (run cfgDefault [inpScenA, inpBig]).trades.length ≠
      (run cfgDefault [inpScenA]).trades.length ∧
    lookupPos (run cfgDefault [inpScenA, inpBig]).positions "MINTX" ≠
      lookupPos (run cfgDefault [inpScenA]).positions "MINTX" := by
  decide

/-- C1 (amended): an event rejected by any of the seven filter-chain
reasons (skip_err, skip_missing_fields, skip_allowlist,
skip_signal_type, skip_min_amount, skip_min_dominance, skip_no_price)
leaves cash, all positions, the trade ledger and the equity curve
exactly unchanged; an event rejected with `skip_insufficient_cash`
leaves the engine exactly in the state produced by the preceding exit
evaluation with only that counter bumped — so the rejected buy itself
mutates nothing, but the same event's earlier exit may already have
sold. -/
theorem C1_rejection_state (cfg : ExecConfig) (inp : EventInput) (st : EngineState) :
    (∀ r, preReject cfg inp = some r →
      (step cfg inp st).cash = st.cash ∧
      (step cfg inp st).positions = st.positions ∧
      (step cfg inp st).trades = st.trades ∧
      (step cfg inp st).equity = st.equity) ∧
    (∀ p, preReject cfg inp = none →
      inp.prices (evMint inp.ev) = some p →
      (maybe_exit cfg inp.ev.ts (evMint inp.ev) p (evSig inp.ev) st).cash <
        totalCostSpec cfg inp.ev.top_amount p →
      step cfg inp st =
        bumpSkip SkipReason.insufficient_cash
          (maybe_exit cfg inp.ev.ts (evMint inp.ev) p (evSig inp.ev) st)) := by
  constructor
  · intro r h
    rw [step_of_preReject cfg inp st r h]
    exact ⟨rfl, rfl, rfl, rfl⟩
  · intro p h hp hlt
    rw [step_of_pass cfg inp st p h hp]
    exact entryStage_insufficient cfg inp p _ hlt

/-- Witness for C1: the error event leaves the initial state's cash
unchanged, and the insufficient-cash rejection of `inpBig` is exactly
the post-exit state with the counter bumped. -/
theorem C1_rejection_state_witness :
    (step cfgDefault inpErr (initState cfgDefault)).cash = (initState cfgDefault).cash ∧
    step cfgDefault inpBig (run cfgDefault [inpScenA]) =
      bumpSkip SkipReason.insufficient_cash
        (maybe_exit cfgDefault inpBig.ev.ts (evMint inpBig.ev) 4 (evSig inpBig.ev)
          (run cfgDefault [inpScenA])) := by
  constructor
  · exact ((C1_rejection_state cfgDefault inpErr (initState cfgDefault)).1
      SkipReason.err (by decide)).1
  · exact (C1_rejection_state cfgDefault inpBig (run cfgDefault [inpScenA])).2
      4 (by decide) (by decide) (by decide)

/-! ### Claim C4: buy sizing and Scenario A -/

/-- C4: an accepted buy costs exactly
`total_cost = gross + fees + slippage` with
`trade_units = top_amount × copy_fraction`, `gross = trade_units × p`,
bps-scaled fees and slippage; cash decreases by `total_cost`, the
position becomes the fresh entry (from flat) or the cost-weighted
average, and one BUY row is appended; on Scenario A's input the result
is a BUY of 0.5 units with gross 1.0, fees 0.002, slippage 0.003,
total cost 1.005 and cash 998.995. -/
theorem C4_buy_sizing (cfg : ExecConfig) (inp : EventInput) (p : ℚ) (st1 : EngineState)
    (h : totalCostSpec cfg inp.ev.top_amount p ≤ st1.cash) :
    ((entryStage cfg inp p st1).cash =
        st1.cash - totalCostSpec cfg inp.ev.top_amount p ∧
      (entryStage cfg inp p st1).positions = setPos st1.positions (evMint inp.ev)
        (postBuyPosSpec cfg
          ((lookupPos st1.positions (evMint inp.ev)).getD Position.zero)
          inp.ev.top_amount p inp.ev.ts) ∧
      (entryStage cfg inp p st1).trades = st1.trades ++
        [TradeRow.buy inp.ev.ts (evSig inp.ev) (evMint inp.ev)
          (inp.ev.top_amount * cfg.copy_fraction) p
          (inp.ev.top_amount * cfg.copy_fraction * p)
          (inp.ev.top_amount * cfg.copy_fraction * p * (cfg.fee_bps / 10000))
          (inp.ev.top_amount * cfg.copy_fraction * p * (cfg.slippage_bps / 10000))
          (totalCostSpec cfg inp.ev.top_amount p)
          (st1.cash - totalCostSpec cfg inp.ev.top_amount p)]) ∧
    ((run cfgDefault [inpScenA]).cash = 199799 / 200 ∧
      (run cfgDefault [inpScenA]).trades =
        [TradeRow.buy 100 "sig1" "MINTX" (1 / 2) 2 1 (1 / 500) (3 / 1000) (201 / 200)
          (199799 / 200)]) := by
  refine ⟨?_, by decide, by decide⟩
  rw [entryStage_accepted cfg inp p st1 h]
  exact ⟨mark_equity_cash .., mark_equity_positions .., mark_equity_trades ..⟩

/-- Witness for C4 at Scenario A's entry from the initial state. -/
theorem C4_buy_sizing_witness :
    (entryStage cfgDefault inpScenA 2 (initState cfgDefault)).cash =
      (initState cfgDefault).cash - totalCostSpec cfgDefault inpScenA.ev.top_amount 2 := by
  exact ((C4_buy_sizing cfgDefault inpScenA 2 (initState cfgDefault) (by decide)).1).1

/-! ### Claim C2: the equity snapshot -/

theorem posValueLoop_spec (prices : String → Option ℚ) :
    ∀ (l : List (String × Position)) (acc : ℚ) (anyp : Bool),
      posValueLoop prices l acc anyp = (acc + valuedSum prices l, anyp || anyRes prices l)
  | [], acc, anyp => by simp [posValueLoop, valuedSum, anyRes]
  | (m, p) :: rest, acc, anyp => by
    unfold posValueLoop valuedSum anyRes
    by_cases hu : p.units ≤ 0
    · rw [if_pos hu, posValueLoop_spec prices rest acc anyp,
        if_neg (not_lt.mpr hu), decide_eq_false (not_lt.mpr hu)]
      simp
    · rw [if_neg hu]
      have hu' : 0 < p.units := not_le.mp hu
      cases hp : prices m with
      | none =>
        dsimp only
        rw [posValueLoop_spec prices rest acc anyp, if_pos hu']
        simp [hp]
      | some px =>
        dsimp only
        rw [posValueLoop_spec prices rest (acc + p.units * px) true, if_pos hu']
        simp [hp, add_assoc, hu']

theorem valuedSum_zero_of_anyRes_false (prices : String → Option ℚ) :
    ∀ l, anyRes prices l = false → valuedSum prices l = 0
  | [], _ => rfl
  | (m, p) :: rest, h => by
    unfold anyRes at h
    rw [Bool.or_eq_false_iff] at h
    obtain ⟨h1, h2⟩ := h
    unfold valuedSum
    rw [valuedSum_zero_of_anyRes_false prices rest h2, add_zero]
    rcases Bool.and_eq_false_iff.mp h1 with hc | hc
    · rw [if_neg (of_decide_eq_false hc)]
    · have hnone : prices m = none := by
        rcases hpm : prices m with _ | px
        · rfl
        · rw [hpm] at hc
          exact absurd hc (by simp)
      rw [hnone]
      split_ifs <;> rfl

theorem mark_equity_spec (prices : String → Option ℚ) (ts : ℚ) (st : EngineState) :
    mark_equity prices ts st =
      { st with equity := st.equity ++
        [{ ts := ts
           cash_usd := st.cash
           position_value_usd := valuedSum prices st.positions
           equity_usd := st.cash + valuedSum prices st.positions
           open_positions := openPositions st.positions }] } := by
  unfold mark_equity
  rw [posValueLoop_spec prices st.positions 0 false]
  dsimp only
  rw [zero_add, Bool.false_or]
  by_cases h : anyRes prices st.positions = true
  · rw [if_pos h]
  · have hfalse : anyRes prices st.positions = false := by simpa using h
    have hv := valuedSum_zero_of_anyRes_false prices st.positions hfalse
    rw [if_neg h, hv]

/-- C2: every processed, non-rejected event (all filters pass, the
price resolves, and the post-exit cash covers the buy) appends exactly
one EquitySnapshot whose equity equals cash + position_value exactly,
where position_value is the sum of units×price over positions with
positive units and a resolvable price; unpriceable mints contribute
nothing. -/
theorem C2_equity_snapshot (cfg : ExecConfig) (inp : EventInput) (st : EngineState) (p : ℚ)
    (hpre : preReject cfg inp = none)
    (hp : inp.prices (evMint inp.ev) = some p)
    (hcash : totalCostSpec cfg inp.ev.top_amount p ≤
      (maybe_exit cfg inp.ev.ts (evMint inp.ev) p (evSig inp.ev) st).cash) :
    appendsOneSnapshot inp.prices inp.ev.ts st (step cfg inp st) := by
  unfold appendsOneSnapshot
  rw [step_of_pass cfg inp st p hpre hp, entryStage_accepted cfg inp p _ hcash,
    mark_equity_spec]
  simp [maybe_exit_equity]

/-- Witness for C2 at Scenario A from the initial state. -/
theorem C2_equity_snapshot_witness :
    appendsOneSnapshot inpScenA.prices inpScenA.ev.ts (initState cfgDefault)
      (step cfgDefault inpScenA (initState cfgDefault)) := by
  exact C2_equity_snapshot cfgDefault inpScenA (initState cfgDefault) 2
    (by decide) (by decide) (by decide)

/-! ### Claim C3: exit evaluation before entry, exit priority and effects -/

/-- C3 counterexample: with `sell_fraction = 0`, a same-mint event at
price 4.0 passes the filter chain, the open position (0.5 units at
avg entry 2.0) satisfies the take-profit condition, yet no SELL row is
appended — the exit is silently abandoned because
`sell_units = units × sell_fraction = 0`. -/
theorem C3_counterexample :
    cfgNoSell.sell_fraction = 0 ∧
    preReject cfgNoSell inpFollow4 = none ∧
    inpFollow4.prices (evMint inpFollow4.ev) = some 4 ∧
    lookupPos (run cfgNoSell [inpScenA]).positions "MINTX" =
      some { units := 1 / 2, avg_entry := 2, entry_ts := 100 } ∧
    exitReasonSpec cfgNoSell ((4 / 2 - 1) * 100) (200 - 100) = some "take_profit" ∧
    (run cfgNoSell [inpScenA, inpFollow4]).trades.filter TradeRow.isSell = [] ∧
    (run cfgNoSell [inpScenA, inpFollow4]).trades.length = 2 := by
  decide

/-- C3 (amended): for every event that passes the filter chain with
resolved price `p`, the step is exactly the entry stage applied after
exit evaluation for the event's mint; when that mint holds a position
with positive units and positive average entry, the exit reason is
chosen with the take_profit / stop_loss / time_exit priority; with no
triggered reason the state is untouched, and with a triggered reason
and `sell_units = units × sell_fraction > 0` the engine adds
`net = gross − fees − slippage` to cash, reduces the position by
`sell_units` (snapping a residual at or below 1e-12 to exactly zero
with avg_entry_price and entry_timestamp reset), and appends one SELL
row carrying the reason; if `sell_units ≤ 0` (e.g. `sell_fraction = 0`)
the exit is abandoned with no state change. -/
theorem C3_exit_rule (cfg : ExecConfig) (inp : EventInput) (st : EngineState) (p : ℚ)
    (hpre : preReject cfg inp = none)
    (hp : inp.prices (evMint inp.ev) = some p) :
    step cfg inp st = entryStage cfg inp p
      (maybe_exit cfg inp.ev.ts (evMint inp.ev) p (evSig inp.ev) st) ∧
    (∀ pos, lookupPos st.positions (evMint inp.ev) = some pos →
      0 < pos.units → 0 < pos.avg_entry →
      (exitReasonSpec cfg ((p / pos.avg_entry - 1) * 100) (inp.ev.ts - pos.entry_ts) =
          none →
        maybe_exit cfg inp.ev.ts (evMint inp.ev) p (evSig inp.ev) st = st) ∧
      (∀ r, exitReasonSpec cfg ((p / pos.avg_entry - 1) * 100)
          (inp.ev.ts - pos.entry_ts) = some r →
        (pos.units * cfg.sell_fraction ≤ 0 →
          maybe_exit cfg inp.ev.ts (evMint inp.ev) p (evSig inp.ev) st = st) ∧
        (0 < pos.units * cfg.sell_fraction →
          maybe_exit cfg inp.ev.ts (evMint inp.ev) p (evSig inp.ev) st =
            { st with
              cash := st.cash + sellNetSpec cfg pos p
              positions := setPos st.positions (evMint inp.ev) (postSellPosSpec cfg pos)
              trades := st.trades ++
                [TradeRow.sell inp.ev.ts (evSig inp.ev) (evMint inp.ev) r
                  (sellUnitsSpec cfg pos) p
                  (sellUnitsSpec cfg pos * p)
                  (sellUnitsSpec cfg pos * p * (cfg.fee_bps / 10000))
                  (sellUnitsSpec cfg pos * p * (cfg.slippage_bps / 10000))
                  (sellNetSpec cfg pos p)
                  (st.cash + sellNetSpec cfg pos p)
                  ((p / pos.avg_entry - 1) * 100)] }))) := by
  refine ⟨step_of_pass cfg inp st p hpre hp, ?_⟩
  intro pos hl hu ha
  refine ⟨maybe_exit_no_reason cfg _ _ p _ st pos hl hu ha, ?_⟩
  intro r hr
  exact ⟨maybe_exit_zero_sell cfg _ _ p _ st pos hl hu ha r hr,
    maybe_exit_sells cfg _ _ p _ st pos hl hu ha r hr⟩

/-- Witness for C3 at Scenario B: the take-profit exit at price 2.05
appends exactly one SELL row to the state left by Scenario A. -/
theorem C3_exit_rule_witness :
    (maybe_exit cfgDefault inpScenB.ev.ts (evMint inpScenB.ev) (41 / 20)
        (evSig inpScenB.ev) (run cfgDefault [inpScenA])).trades.filter TradeRow.isSell =
      [TradeRow.sell 200 "sig2" "MINTX" "take_profit" (1 / 2) (41 / 20) (41 / 40)
        (41 / 40 * (20 / 10000)) (41 / 40 * (30 / 10000)) (8159 / 8000) (8000119 / 8000)
        (5 / 2)] := by
  have h := (((C3_exit_rule cfgDefault inpScenB (run cfgDefault [inpScenA]) (41 / 20)
      (by decide) (by decide)).2 { units := 1 / 2, avg_entry := 2, entry_ts := 100 }
      (by decide) (by decide) (by decide)).2 "take_profit" (by decide)).2 (by decide)
  rw [h]
  decide

/-! ### Claim C6: nonnegativity invariants -/

theorem lookupPos_mem : ∀ (l : List (String × Position)) (m : String) (pos : Position),
    lookupPos l m = some pos → (m, pos) ∈ l
  | [], _, _, h => nomatch h
  | (k, q) :: rest, m, pos, h => by
    unfold lookupPos at h
    split_ifs at h with hk
    · injection h with h'
      subst h'
      subst hk
      exact List.mem_cons_self _ _
    · exact List.mem_cons_of_mem _ (lookupPos_mem rest m pos h)

theorem setPos_mem : ∀ (l : List (String × Position)) (m : String) (p : Position)
    (x : String × Position), x ∈ setPos l m p → x = (m, p) ∨ x ∈ l
  | [], m, p, x, h => by
    simp [setPos] at h
    exact Or.inl h
  | (k, q) :: rest, m, p, x, h => by
    unfold setPos at h
    split_ifs at h with hk
    · rcases List.mem_cons.mp h with h1 | h1
      · exact Or.inl h1
      · exact Or.inr (List.mem_cons_of_mem _ h1)
    · rcases List.mem_cons.mp h with h1 | h1
      · exact Or.inr (h1 ▸ List.mem_cons_self _ _)
      · rcases setPos_mem rest m p x h1 with h2 | h2
        · exact Or.inl h2
        · exact Or.inr (List.mem_cons_of_mem _ h2)

theorem preRejectSignal_none_facts (cfg : ExecConfig) (inp : EventInput)
    (h : preRejectSignal cfg inp = none) :
    cfg.min_signal_amount ≤ inp.ev.top_amount ∧ (inp.prices (evMint inp.ev)).isSome := by
  unfold preRejectSignal at h
  by_cases h1 : ¬ signalAllowed cfg inp.ev.signal = true
  · rw [if_pos h1] at h
    exact absurd h (by simp)
  · rw [if_neg h1] at h
    by_cases h2 : inp.ev.top_amount < cfg.min_signal_amount
    · rw [if_pos h2] at h
      exact absurd h (by simp)
    · rw [if_neg h2] at h
      by_cases h3 : inp.ev.dominance < cfg.min_dominance
      · rw [if_pos h3] at h
        exact absurd h (by simp)
      · rw [if_neg h3] at h
        refine ⟨not_lt.mp h2, ?_⟩
        rcases hp : inp.prices (evMint inp.ev) with _ | p
        · rw [hp] at h
          exact absurd h (by simp)
        · simp

theorem preReject_none_signal (cfg : ExecConfig) (inp : EventInput)
    (h : preReject cfg inp = none) : preRejectSignal cfg inp = none := by
  unfold preReject at h
  by_cases h1 : inp.ev.err.isSome = true
  · rw [if_pos h1] at h
    exact absurd h (by simp)
  · rw [if_neg h1] at h
    by_cases h2 : falsyStr inp.ev.signature = true ∨ falsyStr inp.ev.top_mint = true
    · rw [if_pos h2] at h
      exact absurd h (by simp)
    · rw [if_neg h2] at h
      rcases hm : cfg.allow_mints with _ | allow
      · rw [hm] at h
        exact h
      · rw [hm] at h
        dsimp only at h
        by_cases h3 : evMint inp.ev ∉ allow
        · rw [if_pos h3] at h
          exact absurd h (by simp)
        · rw [if_neg h3] at h
          exact h

theorem maybe_exit_inv (cfg : ExecConfig) (ts : ℚ) (mint : String) (price : ℚ)
    (sig : String) (st : EngineState)
    (hinv : InvState st) (hsf0 : 0 ≤ cfg.sell_fraction) (hsf1 : cfg.sell_fraction ≤ 1)
    (hfee : cfg.fee_bps + cfg.slippage_bps ≤ 10000) (hpx : 0 ≤ price) :
    InvState (maybe_exit cfg ts mint price sig st) := by
  cases hl : lookupPos st.positions mint with
  | none =>
    unfold maybe_exit
    rw [hl]
    exact hinv
  | some pos =>
    by_cases hu : pos.units ≤ 0
    · unfold maybe_exit
      rw [hl]
      dsimp only
      rw [if_pos hu]
      exact hinv
    · by_cases ha : pos.avg_entry ≤ 0
      · unfold maybe_exit
        rw [hl]
        dsimp only
        rw [if_neg hu, if_pos ha]
        exact hinv
      · have hu' : 0 < pos.units := not_le.mp hu
        have ha' : 0 < pos.avg_entry := not_le.mp ha
        cases hr : exitReasonSpec cfg ((price / pos.avg_entry - 1) * 100)
            (ts - pos.entry_ts) with
        | none =>
          rw [maybe_exit_no_reason cfg ts mint price sig st pos hl hu' ha' hr]
          exact hinv
        | some r =>
          by_cases hsu : pos.units * cfg.sell_fraction ≤ 0
          · rw [maybe_exit_zero_sell cfg ts mint price sig st pos hl hu' ha' r hr hsu]
            exact hinv
          · have hsu' : 0 < pos.units * cfg.sell_fraction := not_le.mp hsu
            rw [maybe_exit_sells cfg ts mint price sig st pos hl hu' ha' r hr hsu']
            constructor
            · show 0 ≤ st.cash + sellNetSpec cfg pos price
              have hg : 0 ≤ sellUnitsSpec cfg pos * price :=
                mul_nonneg (le_of_lt hsu') hpx
              have hnet : sellNetSpec cfg pos price =
                  (sellUnitsSpec cfg pos * price) *
                    (1 - cfg.fee_bps / 10000 - cfg.slippage_bps / 10000) := by
                simp only [sellNetSpec]
                ring
              have hmult : (0 : ℚ) ≤ 1 - cfg.fee_bps / 10000 - cfg.slippage_bps / 10000 := by
                linarith
              have : 0 ≤ sellNetSpec cfg pos price := by
                rw [hnet]
                exact mul_nonneg hg hmult
              linarith [hinv.1]
            · intro x hx
              rcases setPos_mem _ _ _ _ hx with h1 | h1
              · rw [h1]
                show 0 ≤ (postSellPosSpec cfg pos).units
                have hres : 0 ≤ pos.units - pos.units * cfg.sell_fraction := by
                  nlinarith [mul_nonneg (le_of_lt hu') (sub_nonneg.mpr hsf1)]
                simp only [postSellPosSpec, sellUnitsSpec]
                split_ifs
                · exact le_refl 0
                · exact hres
              · exact hinv.2 x h1

theorem entryStage_inv (cfg : ExecConfig) (inp : EventInput) (p : ℚ) (st1 : EngineState)
    (hinv : InvState st1) (hcf : 0 ≤ cfg.copy_fraction) (hta : 0 ≤ inp.ev.top_amount) :
    InvState (entryStage cfg inp p st1) := by
  by_cases h : st1.cash < totalCostSpec cfg inp.ev.top_amount p
  · rw [entryStage_insufficient cfg inp p st1 h]
    exact hinv
  · rw [entryStage_accepted cfg inp p st1 (not_lt.mp h)]
    constructor
    · show 0 ≤ st1.cash - totalCostSpec cfg inp.ev.top_amount p
      linarith [not_lt.mp h]
    · intro x hx
      rcases setPos_mem _ _ _ _ hx with h1 | h1
      · rw [h1]
        show 0 ≤ (postBuyPosSpec cfg
          ((lookupPos st1.positions (evMint inp.ev)).getD Position.zero)
          inp.ev.top_amount p inp.ev.ts).units
        have hpos0 : 0 ≤ ((lookupPos st1.positions (evMint inp.ev)).getD
            Position.zero).units := by
          rcases hlp : lookupPos st1.positions (evMint inp.ev) with _ | q
          · norm_num [Position.zero]
          · exact hinv.2 (evMint inp.ev, q) (lookupPos_mem _ _ _ hlp)
        have htu : 0 ≤ inp.ev.top_amount * cfg.copy_fraction := mul_nonneg hta hcf
        simp only [postBuyPosSpec]
        split_ifs
        · exact add_nonneg hpos0 htu
        · exact add_nonneg hpos0 htu
      · exact hinv.2 x h1

theorem step_inv (cfg : ExecConfig) (inp : EventInput) (st : EngineState)
    (hinv : InvState st)
    (hsf0 : 0 ≤ cfg.sell_fraction) (hsf1 : cfg.sell_fraction ≤ 1)
    (hcf : 0 ≤ cfg.copy_fraction) (hmin : 0 ≤ cfg.min_signal_amount)
    (hfee : cfg.fee_bps + cfg.slippage_bps ≤ 10000)
    (hprices : ∀ m q, inp.prices m = some q → 0 ≤ q) :
    InvState (step cfg inp st) := by
  cases hpre : preReject cfg inp with
  | some r =>
    rw [step_of_preReject cfg inp st r hpre]
    exact hinv
  | none =>
    obtain ⟨hta, hps⟩ :=
      preRejectSignal_none_facts cfg inp (preReject_none_signal cfg inp hpre)
    obtain ⟨p, hp⟩ := Option.isSome_iff_exists.mp hps
    rw [step_of_pass cfg inp st p hpre hp]
    exact entryStage_inv cfg inp p _
      (maybe_exit_inv cfg _ _ p _ st hinv hsf0 hsf1 hfee (hprices _ p hp))
      hcf (le_trans hmin hta)

theorem run_inv_aux (cfg : ExecConfig)
    (hsf0 : 0 ≤ cfg.sell_fraction) (hsf1 : cfg.sell_fraction ≤ 1)
    (hcf : 0 ≤ cfg.copy_fraction) (hmin : 0 ≤ cfg.min_signal_amount)
    (hfee : cfg.fee_bps + cfg.slippage_bps ≤ 10000) :
    ∀ (inputs : List EventInput) (st : EngineState), InvState st →
      (∀ inp ∈ inputs, ∀ m q, inp.prices m = some q → 0 ≤ q) →
      InvState (inputs.foldl (fun s i => step cfg i s) st)
  | [], _, hinv, _ => hinv
  | inp :: rest, st, hinv, hpx => by
    rw [List.foldl_cons]
    exact run_inv_aux cfg hsf0 hsf1 hcf hmin hfee rest _
      (step_inv cfg inp st hinv hsf0 hsf1 hcf hmin hfee
        (hpx inp (List.mem_cons_self _ _)))
      (fun i hi => hpx i (List.mem_cons_of_mem _ hi))

/-- C6 counterexample: the claim constrains only `starting_cash ≥ 0`
and `sell_fraction ∈ [0,1]`; with `copy_fraction = -1` (allowed by
those constraints) a single accepted buy at price 1 drives the mint's
units to −5 < 0. -/
theorem C6_counterexample :
    0 ≤ cfgNegCopy.starting_cash ∧ 0 ≤ cfgNegCopy.sell_fraction ∧
    cfgNegCopy.sell_fraction ≤ 1 ∧
    lookupPos (run cfgNegCopy [inpAt1]).positions "MINTX" =
      some { units := -5, avg_entry := 1, entry_ts := 100 } ∧
    ¬ (0 : ℚ) ≤ -5 := by
  decide

/-- C6 (amended): with `starting_cash ≥ 0`, `sell_fraction ∈ [0,1]`,
`copy_fraction ≥ 0`, `min_signal_amount ≥ 0`,
`fee_bps + slippage_bps ≤ 10000` and a price oracle that only resolves
nonnegative prices, every reachable engine state has `cash ≥ 0` and
every position's `units ≥ 0`; moreover a buy whose total cost exceeds
the available cash is rejected outright as `skip_insufficient_cash` —
the post-exit state with only the counter bumped — never clipped to
the available cash. -/
theorem C6_invariants (cfg : ExecConfig) (inputs : List EventInput)
    (h0 : 0 ≤ cfg.starting_cash)
    (hsf0 : 0 ≤ cfg.sell_fraction) (hsf1 : cfg.sell_fraction ≤ 1)
    (hcf : 0 ≤ cfg.copy_fraction) (hmin : 0 ≤ cfg.min_signal_amount)
    (hfee : cfg.fee_bps + cfg.slippage_bps ≤ 10000)
    (hpx : NonnegPrices inputs) :
    InvState (run cfg inputs) ∧
    (∀ inp st p, preReject cfg inp = none →
      inp.prices (evMint inp.ev) = some p →
      (maybe_exit cfg inp.ev.ts (evMint inp.ev) p (evSig inp.ev) st).cash <
        totalCostSpec cfg inp.ev.top_amount p →
      step cfg inp st = bumpSkip SkipReason.insufficient_cash
        (maybe_exit cfg inp.ev.ts (evMint inp.ev) p (evSig inp.ev) st)) := by
  constructor
  · have hinit : InvState (initState cfg) := by
      constructor
      · exact h0
      · intro x hx
        exact absurd hx (List.not_mem_nil x)
    exact run_inv_aux cfg hsf0 hsf1 hcf hmin hfee inputs (initState cfg) hinit hpx
  · intro inp st p hpre hp hlt
    rw [step_of_pass cfg inp st p hpre hp]
    exact entryStage_insufficient cfg inp p _ hlt

/-- Witness for C6 at the default configuration over Scenario A
followed by Scenario B. -/
theorem C6_invariants_witness :
    InvState (run cfgDefault [inpScenA, inpScenB]) := by
  have hpx : NonnegPrices [inpScenA, inpScenB] := by
    intro inp hin m q hq
    rcases List.mem_cons.mp hin with rfl | hin2
    · replace hq : pricesAt 2 m = some q := hq
      unfold pricesAt at hq
      split_ifs at hq
      injection hq with hq'
      rw [← hq']
      norm_num
    · rcases List.mem_cons.mp hin2 with rfl | hin3
      · replace hq : pricesAt (41 / 20) m = some q := hq
        unfold pricesAt at hq
        split_ifs at hq
        injection hq with hq'
        rw [← hq']
        norm_num
      · exact absurd hin3 (List.not_mem_nil inp)
  exact (C6_invariants cfgDefault [inpScenA, inpScenB] (by decide) (by decide)
    (by decide) (by decide) (by decide) (by decide) hpx).1

/-! ### Claim C9: the division in exit evaluation is guarded -/

/-- C9: exit evaluation never divides by zero: when the event's mint
has a position with `units > 0` but `avg_entry_price ≤ 0` (a state
reachable by buying at a resolved price of 0, as the witness shows),
`maybe_exit` returns the state unchanged — no sell, no appended trade
row, and no skip counter incremented. -/
theorem C9_exit_guard (cfg : ExecConfig) (ts : ℚ) (mint : String) (price : ℚ)
    (trigger_sig : String) (st : EngineState) (pos : Position)
    (hl : lookupPos st.positions mint = some pos)
    (hu : 0 < pos.units) (ha : pos.avg_entry ≤ 0) :
    maybe_exit cfg ts mint price trigger_sig st = st := by
  simp only [maybe_exit, hl]
  rw [if_neg (not_le.mpr hu), if_pos ha]

/-- Witness for C9, at the reachable state produced by Scenario A's
event priced at 0: the position holds 0.5 units at zero avg entry, and
a later exit check leaves the whole state untouched. -/
theorem C9_exit_guard_witness :
    lookupPos (run cfgDefault [inpZeroPrice]).positions "MINTX" =
      some { units := 1 / 2, avg_entry := 0, entry_ts := 100 } ∧
    maybe_exit cfgDefault 200 "MINTX" 3 "sig2" (run cfgDefault [inpZeroPrice]) =
      run cfgDefault [inpZeroPrice] := by
  refine ⟨by decide, ?_⟩
  exact C9_exit_guard cfgDefault 200 "MINTX" 3 "sig2" (run cfgDefault [inpZeroPrice])
    { units := 1 / 2, avg_entry := 0, entry_ts := 100 } (by decide) (by decide) (by decide)

/-! ### Claim C10: falsy token identifiers short-circuit the oracle -/

/-- C10: `get_price` called with `None`, an empty string, or a
whitespace-only string returns unavailable immediately: no network
attempt, no retry, and no sleep. -/
theorem C10_falsy_mint (max_retries : ℕ) (oracle : AttemptOracle) (s : String)
    (h : pyStrip s = "") :
    get_price max_retries none oracle = { result := none, sleeps := [], attempts := 0 } ∧
    get_price max_retries (some s) oracle = { result := none, sleeps := [], attempts := 0 } := by
  constructor
  · rfl
  · unfold get_price
    simp [h]

/-- Witness for C10 at the one-space string. -/
theorem C10_falsy_mint_witness :
    pyStrip " " = "" ∧
    get_price 3 none (fun _ => Except.error ()) =
      { result := none, sleeps := [], attempts := 0 } ∧
    get_price 3 (some " ") (fun _ => Except.error ()) =
      { result := none, sleeps := [], attempts := 0 } := by
  have h := C10_falsy_mint 3 (fun _ => Except.error ()) " " (by decide)
  exact ⟨by decide, h.1, h.2⟩

end Trader
